import Mathlib

/-!
Shallow embedding of the URL-shortener core in src/src/routes/short_urls.rs.

The handler-level functions (`generate_short_url`, `navigate_to_long_url`) and the
storage helpers (`generate_short_code`, `fetch_long_url`, `fetch_short_code`,
`insert_new_url`, `is_valid`) are translated from the Rust source.  The Postgres
table `short_urls` itself (its migrations are not part of the repository's `src/`)
is modelled from the spec, section 3 and 4.1: a relation of records with an
auto-incrementing integer `id` assigned on insert, a `created_at` timestamp that
strictly increases with insertion order, and unique constraints on both
`original_url` and `short_code` whose violation an insert reports as a conflict.
-/

/-- The fixed 62-symbol alphabet of `generate_short_code`
(`b"abcdefghijklmnopqrstuvwxyzABCDEFGHIJKLMNOPQRSTUVWXYZ0123456789"`). -/
def allowed_chars : List Char :=
  ['a', 'b', 'c', 'd', 'e', 'f', 'g', 'h', 'i', 'j', 'k', 'l', 'm',
   'n', 'o', 'p', 'q', 'r', 's', 't', 'u', 'v', 'w', 'x', 'y', 'z',
   'A', 'B', 'C', 'D', 'E', 'F', 'G', 'H', 'I', 'J', 'K', 'L', 'M',
   'N', 'O', 'P', 'Q', 'R', 'S', 'T', 'U', 'V', 'W', 'X', 'Y', 'Z',
   '0', '1', '2', '3', '4', '5', '6', '7', '8', '9']

/-- The `while num > 0` loop of `generate_short_code`: pushes
`allowed_chars[num % 62]` and divides `num` by 62 until it reaches 0, producing the
digits least-significant first.  A fuel argument makes the recursion structural;
any fuel of at least `num` computes the loop's result because `num` strictly
decreases on every iteration (`num / 62 < num` for `num > 0`).  The index
`num % 62` is always below 62 so the `getD` default is never used (mirroring the
always-in-bounds `allowed_chars[rem]` of the source). -/
def encodeCharsAux : Nat → Nat → List Char
  | 0, _ => []
  | _ + 1, 0 => []
  | fuel + 1, num + 1 =>
    allowed_chars.getD ((num + 1) % 62) 'a' :: encodeCharsAux fuel ((num + 1) / 62)

/-- The base-62 digit list (least-significant first) the loop of
`generate_short_code` produces for a given `num`. -/
def encodeChars (num : Nat) : List Char :=
  encodeCharsAux num num

/-- The short-code string built from the loop's digits
(`String::from_utf8(short_code)`; the `unwrap_or_else` fallback never fires since
every pushed byte is ASCII from the alphabet). -/
def encodeString (num : Nat) : String :=
  ⟨encodeChars num⟩

/-- One row of the `short_urls` table (spec section 3): `id` assigned by the
engine on insert, `created_at` modelled as an abstract tick that increases with
insertion order. -/
structure ShortUrlRecord where
  id : Nat
  original_url : String
  short_code : String
  created_at : Nat
  deriving DecidableEq

/-- The persistent state: the rows of the `short_urls` table in insertion order
(so `created_at` and `id` both increase along the list). -/
structure Registry where
  records : List ShortUrlRecord
  deriving DecidableEq

/-- The storage errors distinguished by the spec's error taxonomy (section 7):
`rowNotFound` is sqlx's RowNotFound from `fetch_one` on an empty result,
`conflict` a uniqueness violation on insert, `unavailable` an engine
connectivity/timeout failure. -/
inductive SqlxError where
  | rowNotFound
  | conflict
  | unavailable
  deriving DecidableEq

deriving instance DecidableEq for Except

/-- The responses `generate_short_url` can produce: 400 for an invalid URL,
200 carrying the short code (the HTTP layer serializes it as
`{"short_url": "/<code>"}`), 500 for any storage failure. -/
inductive ShortenResult where
  | badRequest
  | ok (short_code : String)
  | internalError
  deriving DecidableEq

/-- The responses `navigate_to_long_url` can produce: a redirect to the stored
original URL, or 404. -/
inductive ResolveResponse where
  | redirect (location : String)
  | notFound
  deriving DecidableEq

/-- `is_valid` (lines 178-181): the URL is non-empty and starts with `http://`
or `https://`.  Stated over the character data so that the prefix test is the
structural `List.isPrefixOf`. -/
def is_valid (url : String) : Bool :=
  !url.data.isEmpty &&
    ("http://".data.isPrefixOf url.data || "https://".data.isPrefixOf url.data)

/-- `fetch_short_code` (lines 135-151): `SELECT short_code FROM short_urls WHERE
original_url = $1` via `fetch_one`; a row yields its `short_code`, no row yields
`None`.  The point query is modelled as `find?` over the rows. -/
def fetch_short_code (long_url : String) (reg : Registry) : Option String :=
  match reg.records.find? (fun r => r.original_url == long_url) with
  | some record => some record.short_code
  | none => none

/-- `fetch_long_url` (lines 112-129): `SELECT original_url FROM short_urls WHERE
short_code = $1` via `fetch_one`; a row yields its `original_url`, otherwise
`None`. -/
def fetch_long_url (short_code : String) (reg : Registry) : Option String :=
  match reg.records.find? (fun r => r.short_code == short_code) with
  | some record => some record.original_url
  | none => none

/-- `generate_short_code` (lines 76-106): `SELECT id FROM short_urls ORDER BY
created_at DESC LIMIT 1`; with a row of identifier `id` it base-62 encodes
`id + 1`, with no rows it returns the literal `"a"`.  Since the model keeps rows
in insertion order with strictly increasing `created_at`, the most recent row is
the last one. -/
def generate_short_code (reg : Registry) : String :=
  match reg.records.getLast? with
  | some record => encodeString (record.id + 1)
  | none => "a"

/-- `insert_new_url` (lines 154-176), together with the engine behaviour the
repository keeps outside `src/`.  Modelled from the spec: the migrations defining
the `short_urls` table are not under `src/`, so per spec sections 3 and 4.1 the
insert fails with a conflict when either uniqueness constraint (`original_url` or
`short_code`) would be violated, and otherwise appends a row whose `id` is the
next value of the auto-incrementing identifier and whose `created_at` is the
current tick. -/
def insert_new_url (long_url : String) (short_code : String) (reg : Registry) :
    Except SqlxError Registry :=
  if reg.records.any (fun r => r.original_url == long_url || r.short_code == short_code) then
    .error .conflict
  else
    .ok ⟨reg.records ++
      [{ id := reg.records.length + 1, original_url := long_url,
         short_code := short_code, created_at := reg.records.length }]⟩

/-- The row a successful insert appends: the engine-assigned next identifier and
current tick together with the supplied URL and code (a name for the row built
inside `insert_new_url`, for use in statements about it). -/
def newRecord (long_url : String) (short_code : String) (reg : Registry) :
    ShortUrlRecord :=
  { id := reg.records.length + 1, original_url := long_url,
    short_code := short_code, created_at := reg.records.length }

/-- `generate_short_url` (lines 31-71): reject when `is_valid` is false; return
the existing code when the long URL is already mapped; otherwise generate a code,
insert, and answer 200 with the code on success and 500 on any insert error. -/
def generate_short_url (url : String) (reg : Registry) : ShortenResult × Registry :=
  if is_valid url = false then
    (.badRequest, reg)
  else
    match fetch_short_code url reg with
    | some existing_short_code => (.ok existing_short_code, reg)
    | none =>
      match insert_new_url url (generate_short_code reg) reg with
      | .ok reg2 => (.ok (generate_short_code reg), reg2)
      | .error _ => (.internalError, reg)

/-- The `match` on the insert result at lines 56-70 of `generate_short_url`:
`Ok` answers 200 with the code, any `Err` (conflict included) answers 500
immediately — the source contains no retry. -/
def insert_result_response (short_code : String) :
    Except SqlxError Unit → ShortenResult
  | .ok _ => .ok short_code
  | .error _ => .internalError

/-- The `match` on the query result inside `fetch_long_url` (lines 118-128) with
the outcome of the sqlx call made explicit: `Ok(record)` yields the stored URL,
and every `Err` — RowNotFound and transport failures alike — yields `None`. -/
def fetch_long_url_match (result : Except SqlxError String) : Option String :=
  match result with
  | .ok original_url => some original_url
  | .error _ => none

/-- `navigate_to_long_url` (lines 14-28) with the outcome of the storage query
made explicit: `Some` becomes a redirect to the stored URL, `None` becomes 404. -/
def navigate_to_long_url_from (result : Except SqlxError String) : ResolveResponse :=
  match fetch_long_url_match result with
  | some original_url => .redirect original_url
  | none => .notFound

/-- Helper list evaluation of a least-significant-first base-62 digit string:
the value denoted by a digit list, used to relate the encoder's output to the
number it encodes. -/
def charValAux (c : Char) : List Char → Nat
  | [] => 0
  | d :: rest => if c = d then 0 else charValAux c rest + 1

/-- The digit value of a character: its position in `allowed_chars`. -/
def charVal (c : Char) : Nat :=
  charValAux c allowed_chars

/-- The number denoted by a least-significant-first base-62 digit list. -/
def decodeChars : List Char → Nat
  | [] => 0
  | c :: rest => charVal c + 62 * decodeChars rest

/-- Uniqueness of both keys (spec section 3): no two rows share an
`original_url` and no two rows share a `short_code`. -/
def Registry.uniqueKeys (reg : Registry) : Prop :=
  reg.records.Pairwise
    (fun r1 r2 => r1.original_url ≠ r2.original_url ∧ r1.short_code ≠ r2.short_code)

instance (reg : Registry) : Decidable reg.uniqueKeys :=
  inferInstanceAs (Decidable (List.Pairwise _ _))

/-- The registry state reached by running a sequence of shorten requests,
in order, starting from the empty table. -/
def shorten_all (urls : List String) : Registry :=
  urls.foldl (fun reg u => (generate_short_url u reg).2) ⟨[]⟩

/-- The fuel argument of `encodeCharsAux` is irrelevant once it is at least the
encoded number. -/
theorem encodeCharsAux_eq_of_le :
    ∀ f1 f2 num : Nat, num ≤ f1 → num ≤ f2 →
      encodeCharsAux f1 num = encodeCharsAux f2 num := by
  intro f1
  induction f1 with
  | zero =>
    intro f2 num h1 _
    have hnum : num = 0 := Nat.le_zero.mp h1
    subst hnum
    cases f2 <;> rfl
  | succ f1 ih =>
    intro f2 num h1 h2
    cases num with
    | zero => cases f2 <;> rfl
    | succ m =>
      cases f2 with
      | zero => exact absurd h2 (Nat.not_succ_le_zero m)
      | succ f2 =>
        have hdiv : (m + 1) / 62 ≤ m := by omega
        simp only [encodeCharsAux]
        rw [ih f2 ((m + 1) / 62) (le_trans hdiv (Nat.succ_le_succ_iff.mp h1))
          (le_trans hdiv (Nat.succ_le_succ_iff.mp h2))]

/-- Unfolding equation for `encodeChars`: one loop iteration of
`generate_short_code`. -/
theorem encodeChars_eq (num : Nat) :
    encodeChars num =
      if num = 0 then []
      else allowed_chars.getD (num % 62) 'a' :: encodeChars (num / 62) := by
  cases num with
  | zero => rfl
  | succ m =>
    simp only [encodeChars, encodeCharsAux, Nat.succ_ne_zero, if_false]
    rw [encodeCharsAux_eq_of_le m ((m + 1) / 62) ((m + 1) / 62) (by omega) (le_refl _)]

/-- Each alphabet position below 62 decodes back to itself. -/
theorem charVal_getD : ∀ i, i < 62 → charVal (allowed_chars.getD i 'a') = i := by
  decide

/-- A digit list produced by the encoder evaluates back to the encoded number:
the encoder writes exactly the least-significant-first base-62 representation. -/
theorem decodeChars_encodeChars (num : Nat) :
    decodeChars (encodeChars num) = num := by
  induction num using Nat.strong_induction_on with
  | _ num ih =>
    rw [encodeChars_eq]
    by_cases h : num = 0
    · subst h; rfl
    · simp only [if_neg h, decodeChars]
      rw [ih (num / 62) (Nat.div_lt_self (Nat.pos_of_ne_zero h) (by decide))]
      rw [charVal_getD (num % 62) (Nat.mod_lt num (by decide))]
      omega

/-- The encoder emits at least one digit for every positive number. -/
theorem encodeChars_ne_nil (num : Nat) (h : 1 ≤ num) : encodeChars num ≠ [] := by
  rw [encodeChars_eq]
  simp only [if_neg (by omega : ¬ num = 0)]
  exact List.cons_ne_nil _ _

/-- Every alphabet position below 62 names a character of the alphabet. -/
theorem contains_getD :
    ∀ i, i < 62 → allowed_chars.contains (allowed_chars.getD i 'a') = true := by
  decide

/-- Every digit the encoder emits is a character of the fixed alphabet. -/
theorem encodeChars_all_allowed (num : Nat) :
    (encodeChars num).all (fun c => allowed_chars.contains c) = true := by
  induction num using Nat.strong_induction_on with
  | _ num ih =>
    rw [encodeChars_eq]
    by_cases h : num = 0
    · subst h; rfl
    · simp only [if_neg h, List.all_cons, Bool.and_eq_true]
      exact ⟨contains_getD (num % 62) (Nat.mod_lt num (by decide)),
        ih (num / 62) (Nat.div_lt_self (Nat.pos_of_ne_zero h) (by decide))⟩

/-- A nonzero alphabet position below 62 is not the character of digit zero. -/
theorem getD_ne_digit_zero :
    ∀ i, i < 62 → 1 ≤ i → allowed_chars.getD i 'a' ≠ 'a' := by
  decide

/-- The last digit the encoder emits (the most significant one) is never the
zero digit `'a'`: the representation carries no trailing padding. -/
theorem encodeChars_getLast_ne (num : Nat) (h : 1 ≤ num) :
    (encodeChars num).getLast? ≠ some 'a' := by
  induction num using Nat.strong_induction_on with
  | _ num ih =>
    rw [encodeChars_eq]
    simp only [if_neg (by omega : ¬ num = 0)]
    by_cases hd : num / 62 = 0
    · have hlt : num < 62 := by omega
      rw [hd]
      rw [Nat.mod_eq_of_lt hlt]
      show ([allowed_chars.getD num 'a']).getLast? ≠ some 'a'
      simp only [List.getLast?_singleton]
      intro hc
      exact getD_ne_digit_zero num hlt h (Option.some.injEq _ _ ▸ hc)
    · have h1 : 1 ≤ num / 62 := Nat.pos_of_ne_zero hd
      obtain ⟨x, xs, hx⟩ :=
        List.exists_cons_of_ne_nil (encodeChars_ne_nil (num / 62) h1)
      rw [hx, List.getLast?_cons_cons, ← hx]
      exact ih (num / 62) (by omega) h1

/-- The encoder is injective: equal code strings come from equal identifiers. -/
theorem encodeString_inj {m n : Nat} (h : encodeString m = encodeString n) :
    m = n := by
  have hdata : encodeChars m = encodeChars n := congrArg String.data h
  have hm := decodeChars_encodeChars m
  rw [hdata, decodeChars_encodeChars n] at hm
  omega

/-- Inversion of a successful shorten: the URL passed validation, and either the
dedup lookup hit (state unchanged, existing code returned) or it missed and the
freshly generated code was inserted. -/
theorem gsu_ok_inv {u c : String} {reg reg2 : Registry}
    (h : generate_short_url u reg = (.ok c, reg2)) :
    is_valid u = true ∧
      ((∃ r, reg.records.find? (fun x => x.original_url == u) = some r ∧
          c = r.short_code ∧ reg2 = reg) ∨
       (reg.records.find? (fun x => x.original_url == u) = none ∧
        c = generate_short_code reg ∧
        insert_new_url u c reg = .ok reg2)) := by
  unfold generate_short_url at h
  split at h
  · exact absurd h (by simp)
  · rename_i hvalid
    have hv : is_valid u = true := by
      revert hvalid; cases is_valid u <;> simp
    refine ⟨hv, ?_⟩
    split at h
    · rename_i c0 hfetch
      simp only [Prod.mk.injEq, ShortenResult.ok.injEq] at h
      obtain ⟨hc, hr⟩ := h
      subst hc
      subst hr
      unfold fetch_short_code at hfetch
      cases hfind : reg.records.find? (fun x => x.original_url == u) with
      | none => rw [hfind] at hfetch; cases hfetch
      | some r =>
        rw [hfind] at hfetch
        refine Or.inl ⟨r, rfl, ?_, rfl⟩
        injection hfetch with hh
        exact hh.symm
    · rename_i hfetch
      unfold fetch_short_code at hfetch
      split at h
      · rename_i reg3 hins
        simp only [Prod.mk.injEq, ShortenResult.ok.injEq] at h
        obtain ⟨hc, hr⟩ := h
        subst hc
        subst hr
        refine Or.inr ⟨?_, rfl, hins⟩
        cases hfind : reg.records.find? (fun x => x.original_url == u) with
        | none => rfl
        | some r => rw [hfind] at hfetch; cases hfetch
      · exact absurd h (by simp)

/-- A shorten whose dedup lookup hits returns the existing code and leaves the
state unchanged. -/
theorem gsu_dedup {u c : String} {reg : Registry} (hv : is_valid u = true)
    (hf : fetch_short_code u reg = some c) :
    generate_short_url u reg = (.ok c, reg) := by
  simp [generate_short_url, hv, hf]

/-- A point query over an appended relation skips a prefix none of whose rows
match. -/
theorem find?_append_right {α : Type} (p : α → Bool) :
    ∀ l1 l2 : List α, (∀ x ∈ l1, p x = false) →
      (l1 ++ l2).find? p = l2.find? p := by
  intro l1 l2 h
  induction l1 with
  | nil => rfl
  | cons a l ih =>
    rw [List.cons_append, List.find?_cons_of_neg]
    · exact ih fun x hx => h x (List.mem_cons_of_mem a hx)
    · simp [h a (List.mem_cons_self a l)]

/-- Under short-code uniqueness, the point query by a stored row's short code
returns exactly that row. -/
theorem find_by_code_of_mem {records : List ShortUrlRecord} {r : ShortUrlRecord}
    (hp : records.Pairwise
      (fun a b => a.original_url ≠ b.original_url ∧ a.short_code ≠ b.short_code))
    (hr : r ∈ records) :
    records.find? (fun x => x.short_code == r.short_code) = some r := by
  induction records with
  | nil => cases hr
  | cons a l ih =>
    obtain ⟨hhead, htail⟩ := List.pairwise_cons.mp hp
    rcases List.mem_cons.mp hr with rfl | hmem
    · exact List.find?_cons_of_pos _ (by simp)
    · rw [List.find?_cons_of_neg]
      · exact ih htail hmem
      · simp only [beq_iff_eq]
        exact (hhead r hmem).2

/-- Under long-URL uniqueness, when the point query by long URL returns a row,
that row is the only one carrying this long URL. -/
theorem filter_by_url_of_find? {records : List ShortUrlRecord} {u : String}
    {r : ShortUrlRecord}
    (hp : records.Pairwise
      (fun a b => a.original_url ≠ b.original_url ∧ a.short_code ≠ b.short_code))
    (hf : records.find? (fun x => x.original_url == u) = some r) :
    records.filter (fun x => x.original_url == u) = [r] := by
  induction records with
  | nil => simp [List.find?] at hf
  | cons a l ih =>
    obtain ⟨hhead, htail⟩ := List.pairwise_cons.mp hp
    by_cases hpa : a.original_url = u
    · rw [List.find?_cons_of_pos _ (by simp [hpa])] at hf
      obtain rfl : a = r := by injection hf
      rw [List.filter_cons_of_pos (by simp [hpa])]
      have hnil : l.filter (fun x => x.original_url == u) = [] := by
        rw [List.filter_eq_nil_iff]
        intro x hx
        simp only [beq_iff_eq]
        intro hxu
        exact (hhead x hx).1 (hpa.trans hxu.symm)
      rw [hnil]
    · rw [List.find?_cons_of_neg _ (by simp [hpa])] at hf
      rw [List.filter_cons_of_neg (by simp [hpa])]
      exact ih htail hf

/-- Inversion of a successful insert: no stored row carried the new long URL or
the new short code, and the new state is the old rows plus the freshly assigned
row. -/
theorem insert_ok_inv {u c : String} {reg reg2 : Registry}
    (h : insert_new_url u c reg = .ok reg2) :
    (∀ r ∈ reg.records, r.original_url ≠ u ∧ r.short_code ≠ c) ∧
      reg2 = ⟨reg.records ++ [newRecord u c reg]⟩ := by
  unfold insert_new_url at h
  split at h
  · exact absurd h (by simp)
  · rename_i hany
    refine ⟨?_, ?_⟩
    · intro r hr
      constructor
      · intro he
        exact hany (List.any_eq_true.mpr ⟨r, hr, by simp [he]⟩)
      · intro he
        exact hany (List.any_eq_true.mpr ⟨r, hr, by simp [he]⟩)
    · cases h
      rfl

/-- A successful insert preserves uniqueness of both keys: the conflict check of
the unique constraints only lets a fresh pair through. -/
theorem insert_preserves_unique {u c : String} {reg reg2 : Registry}
    (hinv : reg.uniqueKeys) (h : insert_new_url u c reg = .ok reg2) :
    reg2.uniqueKeys := by
  obtain ⟨hall, rfl⟩ := insert_ok_inv h
  unfold Registry.uniqueKeys at hinv ⊢
  show (reg.records ++ [_]).Pairwise _
  rw [List.pairwise_append]
  refine ⟨hinv, by simp, ?_⟩
  intro a ha b hb
  simp only [List.mem_singleton] at hb
  subst hb
  exact ⟨(hall a ha).1, (hall a ha).2⟩

/-- One shorten request, whatever its outcome, preserves uniqueness of both
keys. -/
theorem shorten_preserves_unique (u : String) (reg : Registry)
    (hinv : reg.uniqueKeys) : (generate_short_url u reg).2.uniqueKeys := by
  unfold generate_short_url
  split
  · exact hinv
  · split
    · exact hinv
    · split
      · rename_i reg2 hins
        exact insert_preserves_unique hinv hins
      · exact hinv

/-- Folding any sequence of shorten requests over a state with unique keys keeps
the keys unique. -/
theorem shorten_all_unique_aux :
    ∀ (urls : List String) (reg : Registry), reg.uniqueKeys →
      (urls.foldl (fun r u => (generate_short_url u r).2) reg).uniqueKeys := by
  intro urls
  induction urls with
  | nil => intro reg h; exact h
  | cons u rest ih =>
    intro reg h
    exact ih _ (shorten_preserves_unique u reg h)

/-- Claim C1 counterexample: from the empty registry, shortening
"https://example.com/a" does return code "a" and create that record, but the
subsequent shorten of the different valid URL "https://example.com/b" returns
code "c" — not "b" as the claim states — because the general encoder maps the
identifier 2 to the digit at alphabet position 2. -/
theorem C1_counterexample :
    generate_short_url "https://example.com/a" ⟨[]⟩ =
      (.ok "a", ⟨[⟨1, "https://example.com/a", "a", 0⟩]⟩) ∧
    (generate_short_url "https://example.com/b"
      ⟨[⟨1, "https://example.com/a", "a", 0⟩]⟩).1 ≠ .ok "b" := by
  decide

/-- Claim C1 (amended): starting from the empty registry,
shorten("https://example.com/a") returns code "a" and creates a record with
exactly that original_url; a subsequent shorten of "https://example.com/b"
returns code "c" (identifier 2, whose base-62 encoding under the 0-based
alphabet is "c"); re-shortening "https://example.com/a" returns "a" again and
creates no new record. -/
theorem C1_amended_scenario :
    generate_short_url "https://example.com/a" ⟨[]⟩ =
      (.ok "a", ⟨[⟨1, "https://example.com/a", "a", 0⟩]⟩) ∧
    generate_short_url "https://example.com/b"
        ⟨[⟨1, "https://example.com/a", "a", 0⟩]⟩ =
      (.ok "c", ⟨[⟨1, "https://example.com/a", "a", 0⟩,
                  ⟨2, "https://example.com/b", "c", 1⟩]⟩) ∧
    generate_short_url "https://example.com/a"
        ⟨[⟨1, "https://example.com/a", "a", 0⟩,
          ⟨2, "https://example.com/b", "c", 1⟩]⟩ =
      (.ok "a", ⟨[⟨1, "https://example.com/a", "a", 0⟩,
                  ⟨2, "https://example.com/b", "c", 1⟩]⟩) := by
  decide

/-- Claim C2 counterexample: a state in which the generated code collides with a
stored short code (a uniqueness conflict on insert, as a concurrent winner would
cause) makes the very first shorten attempt answer 500: a single conflict is
treated as a fatal error, with no retry and no second attempt. -/
theorem C2_counterexample :
    generate_short_url "http://new" ⟨[⟨5, "http://old", "g", 0⟩]⟩ =
      (.internalError, ⟨[⟨5, "http://old", "g", 0⟩]⟩) := by
  decide

/-- Claim C2 (amended): if insert fails — with a uniqueness conflict or any
other storage error — the handler fails the request immediately with an internal
server error and leaves the state unchanged; no retry of the dedup check, code
generation, or insert is ever attempted. -/
theorem C2_amended_no_retry (code : String) (e : SqlxError) (u : String)
    (reg : Registry) (hv : is_valid u = true)
    (hf : fetch_short_code u reg = none)
    (he : insert_new_url u (generate_short_code reg) reg = .error e) :
    insert_result_response code (.error e) = .internalError ∧
    generate_short_url u reg = (.internalError, reg) := by
  refine ⟨rfl, ?_⟩
  simp [generate_short_url, hv, hf, he]

/-- Claim C2 amended witness: the concrete colliding state instantiates the
amended statement. -/
theorem C2_witness :
    insert_result_response "x" (.error .conflict) = .internalError ∧
    generate_short_url "http://new" ⟨[⟨5, "http://old", "g", 0⟩]⟩ =
      (.internalError, ⟨[⟨5, "http://old", "g", 0⟩]⟩) :=
  C2_amended_no_retry "x" .conflict "http://new" ⟨[⟨5, "http://old", "g", 0⟩]⟩
    (by decide) (by decide) (by decide)

/-- Claim C3 counterexample: a storage failure (engine unreachable) during
resolve is answered with 404 Not Found — it is silently converted into
NotFound rather than surfaced as a server-side storage failure. -/
theorem C3_counterexample :
    navigate_to_long_url_from (.error .unavailable) = .notFound := rfl

/-- Claim C3 (amended): resolve returns NotFound both when no record with the
given short code exists and when the storage query fails: fetch_long_url
converts every query error — engine unreachable included — into None, which
navigate_to_long_url surfaces as NotFound; a storage failure is never surfaced
as a server-side failure. -/
theorem C3_amended_resolve (e : SqlxError) :
    fetch_long_url_match (.error e) = none ∧
    navigate_to_long_url_from (.error e) = .notFound ∧
    ∀ u : String, navigate_to_long_url_from (.ok u) = .redirect u :=
  ⟨rfl, rfl, fun _ => rfl⟩


/-- Claim C4: round-trip — for every URL u successfully shortened from a state
with unique keys (the invariant every reachable state satisfies), yielding code
c, a subsequent resolve of c returns exactly u. -/
theorem C4_round_trip (u c : String) (reg reg2 : Registry)
    (hinv : reg.uniqueKeys)
    (h : generate_short_url u reg = (.ok c, reg2)) :
    fetch_long_url c reg2 = some u := by
  obtain ⟨hv, ⟨r, hfind, rfl, rfl⟩ | ⟨hnone, rfl, hins⟩⟩ := gsu_ok_inv h
  · have hmem := List.mem_of_find?_eq_some hfind
    have hurl : r.original_url = u := by
      have hp := List.find?_some hfind
      simpa using hp
    have hcode := find_by_code_of_mem hinv hmem
    unfold fetch_long_url
    rw [hcode]
    show some r.original_url = some u
    rw [hurl]
  · obtain ⟨hall, rfl⟩ := insert_ok_inv hins
    have hfind2 : (reg.records ++ [newRecord u (generate_short_code reg) reg]).find?
        (fun x => x.short_code == generate_short_code reg) =
        some (newRecord u (generate_short_code reg) reg) := by
      rw [find?_append_right]
      · exact List.find?_cons_of_pos _ (by simp [newRecord])
      · intro x hx
        rw [beq_eq_false_iff_ne]
        exact (hall x hx).2
    unfold fetch_long_url
    show (match (reg.records ++ [newRecord u (generate_short_code reg) reg]).find?
        (fun x => x.short_code == generate_short_code reg) with
      | some record => some record.original_url
      | none => none) = some u
    rw [hfind2]
    rfl

/-- Claim C4 witness: shortening a fresh URL from the empty registry and
resolving the returned code round-trips. -/
theorem C4_witness :
    fetch_long_url "a" ⟨[⟨1, "http://x", "a", 0⟩]⟩ = some "http://x" :=
  C4_round_trip "http://x" "a" ⟨[]⟩ ⟨[⟨1, "http://x", "a", 0⟩]⟩
    (by decide) (by decide)

/-- Claim C5: dedup idempotence — if a shorten of u from a state with unique
keys succeeds with code c, then shortening u again returns the same code c and
changes nothing, and afterwards exactly one record carries u as its
original_url. -/
theorem C5_dedup_idempotent (u c : String) (reg reg1 : Registry)
    (hinv : reg.uniqueKeys)
    (h : generate_short_url u reg = (.ok c, reg1)) :
    generate_short_url u reg1 = (.ok c, reg1) ∧
    (reg1.records.filter (fun r => r.original_url == u)).length = 1 := by
  obtain ⟨hv, ⟨r, hfind, rfl, rfl⟩ | ⟨hnone, rfl, hins⟩⟩ := gsu_ok_inv h
  · refine ⟨gsu_dedup hv ?_, ?_⟩
    · unfold fetch_short_code
      rw [hfind]
    · rw [filter_by_url_of_find? hinv hfind]
      rfl
  · obtain ⟨hall, rfl⟩ := insert_ok_inv hins
    have hnew : ∀ x ∈ reg.records, (x.original_url == u) = false := by
      intro x hx
      rw [beq_eq_false_iff_ne]
      exact (hall x hx).1
    have hfind2 : (reg.records ++ [newRecord u (generate_short_code reg) reg]).find?
        (fun x => x.original_url == u) =
        some (newRecord u (generate_short_code reg) reg) := by
      rw [find?_append_right _ _ _ hnew]
      exact List.find?_cons_of_pos _ (by simp [newRecord])
    constructor
    · apply gsu_dedup hv
      unfold fetch_short_code
      show (match (reg.records ++ [newRecord u (generate_short_code reg) reg]).find?
          (fun x => x.original_url == u) with
        | some record => some record.short_code
        | none => none) = some (generate_short_code reg)
      rw [hfind2]
      rfl
    · show ((reg.records ++ [newRecord u (generate_short_code reg) reg]).filter
        (fun x => x.original_url == u)).length = 1
      rw [List.filter_append]
      rw [List.filter_eq_nil_iff.mpr (by
        intro x hx
        simp only [beq_iff_eq]
        exact (hall x hx).1)]
      rw [List.nil_append]
      rw [List.filter_cons_of_pos (by simp [newRecord])]
      rfl

/-- Claim C5 witness: the state after shortening "http://x" from the empty
registry instantiates the dedup-idempotence statement. -/
theorem C5_witness :
    generate_short_url "http://x" ⟨[⟨1, "http://x", "a", 0⟩]⟩ =
      (.ok "a", ⟨[⟨1, "http://x", "a", 0⟩]⟩) ∧
    ((⟨[⟨1, "http://x", "a", 0⟩]⟩ : Registry).records.filter
      (fun r => r.original_url == "http://x")).length = 1 :=
  C5_dedup_idempotent "http://x" "a" ⟨[]⟩ ⟨[⟨1, "http://x", "a", 0⟩]⟩
    (by decide) (by decide)

/-- Claim C6: uniqueness invariant — in every state reachable by a sequence of
shorten operations from the empty registry, no two records share the same
original_url and no two records share the same short_code. -/
theorem C6_unique_keys (urls : List String) : (shorten_all urls).uniqueKeys :=
  shorten_all_unique_aux urls ⟨[]⟩ List.Pairwise.nil

/-- Claim C7: the code generator's encoding is a pure, deterministic function of
the candidate identifier — for every identifier at least 1 it produces a
non-empty string of alphabet characters whose digits, read least-significant
first in base 62 over the fixed alphabet, denote exactly that identifier, with
no trailing zero-digit padding; encoding the same identifier twice yields the
same code (definitionally, as the encoder is a function). -/
theorem C7_encoder (n : Nat) (h : 1 ≤ n) :
    encodeString n = encodeString n ∧
    encodeString n ≠ "" ∧
    (encodeString n).data.all (fun c => allowed_chars.contains c) = true ∧
    decodeChars (encodeString n).data = n ∧
    (encodeString n).data.getLast? ≠ some 'a' := by
  refine ⟨rfl, ?_, encodeChars_all_allowed n, decodeChars_encodeChars n,
    encodeChars_getLast_ne n h⟩
  intro hc
  exact encodeChars_ne_nil n h (congrArg String.data hc)

/-- Claim C7 witness: the encoder's guarantees at the concrete identifier 3. -/
theorem C7_witness :
    encodeString 3 = encodeString 3 ∧
    encodeString 3 ≠ "" ∧
    (encodeString 3).data.all (fun c => allowed_chars.contains c) = true ∧
    decodeChars (encodeString 3).data = 3 ∧
    (encodeString 3).data.getLast? ≠ some 'a' :=
  C7_encoder 3 (by decide)

/-- Claim C8: injectivity of the encoding — for any two distinct identifiers,
both at least 1, the encoded short codes differ. -/
theorem C8_injective (i j : Nat) (hi : 1 ≤ i) (hj : 1 ≤ j) (hne : i ≠ j) :
    encodeString i ≠ encodeString j :=
  fun h => hne (encodeString_inj h)

/-- Claim C8 witness: identifiers 1 and 2 receive different codes. -/
theorem C8_witness : encodeString 1 ≠ encodeString 2 :=
  C8_injective 1 2 (by decide) (by decide) (by decide)

/-- Claim C9: validation — shorten rejects, with a 400 validation failure and
with the registry untouched, every URL that is empty or does not begin with
http:// or https://; in particular "" and "ftp://x" fail validation while
"http://x" and "https://x" pass it. -/
theorem C9_validation :
    is_valid "" = false ∧ is_valid "ftp://x" = false ∧
    is_valid "http://x" = true ∧ is_valid "https://x" = true ∧
    ∀ (url : String) (reg : Registry), is_valid url = false →
      generate_short_url url reg = (.badRequest, reg) := by
  refine ⟨by decide, by decide, by decide, by decide, ?_⟩
  intro url reg h
  simp [generate_short_url, h]

/-- Claim C9 witness: the rejected request "ftp://x" against the empty
registry. -/
theorem C9_witness :
    generate_short_url "ftp://x" ⟨[]⟩ = (.badRequest, ⟨[]⟩) :=
  C9_validation.2.2.2.2 "ftp://x" ⟨[]⟩ (by decide)

/-- Claim C10: for every identifier at least 1 the general base-62 encoder never
outputs the single-character string "a" (the digit of value 0), so the
special-cased first code "a" issued when the registry is empty is distinct from
every code the general encoder can ever produce. -/
theorem C10_first_code (n : Nat) (h : 1 ≤ n) :
    generate_short_code ⟨[]⟩ = "a" ∧ encodeString n ≠ "a" := by
  refine ⟨rfl, fun hc => ?_⟩
  have hd : encodeChars n = ['a'] := congrArg String.data hc
  have hdec := decodeChars_encodeChars n
  rw [hd] at hdec
  have hzero : decodeChars ['a'] = 0 := by decide
  omega

/-- Claim C10 witness: identifier 62, whose encoding "ab" starts with the
character of the special-cased first code yet differs from "a". -/
theorem C10_witness :
    generate_short_code ⟨[]⟩ = "a" ∧ encodeString 62 ≠ "a" :=
  C10_first_code 62 (by decide)
